import Mathlib

/-!
# Verification of the G4DarkBreM dark-bremsstrahlung core

Shallow embedding of the core components of the G4DarkBreM library:

* the event library and its sampling cursor (`G4DarkBreMModel::sample`,
  `MakePlaceholders`, `SetMadGraphDataLibrary`);
* the cross-section estimator skeleton (`G4DarkBreMModel::ComputeCrossSectionPerAtom`,
  with the Gauss-Kronrod numerical integration abstracted as an oracle function);
* the per-element cross-section cache (`ElementXsecCache::get`, `computeKey`);
* the kinematic rescaling engine (`G4DarkBreMModel::scale`) over the reals.

Doubles that only ever take part in field operations and comparisons are
modelled as rationals; quantities that flow through `sqrt`/trigonometric
functions are modelled as reals.
-/

namespace g4db

/-- CLHEP `HepLorentzVector`: a four-vector with components px, py, pz, e. -/
structure LorentzVector where
  px : ℝ
  py : ℝ
  pz : ℝ
  e : ℝ

/-- Record `G4DarkBreMModel::OutgoingKinematics`: one library record, holding the recoil
lepton four-momentum, the four-vector of the center-of-momentum frame, and the
incident energy `E` at which the sample was generated. -/
structure OutgoingKinematics where
  lepton : LorentzVector
  centerMomentum : LorentzVector
  E : ℝ

/-- Enum `G4DarkBreMModel::DarkBremMethod`: the three scaling policies. -/
inductive DarkBremMethod
  | ForwardOnly
  | CMScaling
  | Undefined
deriving DecidableEq

/-! ## Event library and sampling cursor

`madGraphData_` is a `std::map<double, std::vector<OutgoingKinematics>>` and
`currentDataPoints_` a `std::map<double, unsigned int>` over the same keys.
We model each `std::map` as an association list whose key list is strictly
ascending (the iteration order of a `std::map`), with `mapAt` modelling
`std::map::at` (`none` models the thrown `std::out_of_range`) and `mapSet`
modelling assignment through `operator[]`. -/

/-- Model of `std::map::at`: the value stored at `k`, or `none` when `k` is absent
(which in C++ throws `std::out_of_range`). -/
def mapAt {α : Type} (m : List (ℚ × α)) (k : ℚ) : Option α :=
  match m with
  | [] => none
  | (k', v) :: rest => if k = k' then some v else mapAt rest k

/-- Model of `std::map::operator[] = v`: replace the value at an existing key `k`,
or append the binding when `k` is absent. -/
def mapSet {α : Type} (m : List (ℚ × α)) (k : ℚ) (v : α) : List (ℚ × α) :=
  match m with
  | [] => [(k, v)]
  | (k', v') :: rest => if k = k' then (k, v) :: rest else (k', v') :: mapSet rest k v

/-- The key-scanning loop at the top of `G4DarkBreMModel::sample`:
`samplingE` starts at `0.`, is overwritten by each key in ascending order, and
the scan stops as soon as `incident_energy < samplingE`.  The result is the
first key strictly greater than `incident_energy`, the last key when there is
none, and the initial `0.` for an empty map. -/
def selectKeyLoop (incident_energy : ℚ) : List ℚ → ℚ → ℚ
  | [], samplingE => samplingE
  | k :: rest, _ => if incident_energy < k then k else selectKeyLoop incident_energy rest k

/-- The in-memory state of the model that `sample` reads and writes:
the event library `madGraphData_` and the cursor map `currentDataPoints_`. -/
structure SampleState where
  madGraphData : List (ℚ × List OutgoingKinematics)
  currentDataPoints : List (ℚ × ℕ)

/-- The sampling energy `samplingE` that `G4DarkBreMModel::sample` settles on:
the key-scanning loop run over the keys of `currentDataPoints_` starting from
`0.`. -/
def sampledKey (st : SampleState) (incident_energy : ℚ) : ℚ :=
  selectKeyLoop incident_energy (st.currentDataPoints.map Prod.fst) 0

/-- Embedding of `G4DarkBreMModel::sample`: select the sampling energy by scanning the
cursor-map keys, reset the cursor to zero when it has reached the end of the
selected sequence, read the element at the cursor, and post-increment the
cursor.  `none` models any of the `.at` calls throwing. -/
def sample (st : SampleState) (incident_energy : ℚ) :
    Option (OutgoingKinematics × SampleState) :=
  match mapAt st.currentDataPoints (sampledKey st incident_energy),
        mapAt st.madGraphData (sampledKey st incident_energy) with
  | some cursor, some seq =>
    -- `if cursor ≥ seq.length then 0 else cursor` wraps the cursor back to
    -- the start when it has walked off the end of the sequence
    match seq[if cursor ≥ seq.length then 0 else cursor]? with
    | some evt =>
        some (evt, ⟨st.madGraphData,
          mapSet st.currentDataPoints (sampledKey st incident_energy)
            ((if cursor ≥ seq.length then 0 else cursor) + 1)⟩)
    | none => none
  | _, _ => none

/-- Embedding of `G4DarkBreMModel::MakePlaceholders`: rebuild `currentDataPoints_` with a
random starting cursor per key (`rand k` models the `G4UniformRand()` draw,
a real in `[0,1)`, supplied per key) and lower `maxIterations_` from 10000 to
the smallest sequence length in the library.  Returns the new cursor map and
the new `maxIterations_`. -/
def MakePlaceholders (rand : ℚ → ℚ) (madGraphData : List (ℚ × List OutgoingKinematics)) :
    List (ℚ × ℕ) × ℕ :=
  (madGraphData.map fun kv => (kv.1, (⌊rand kv.1 * kv.2.length⌋).toNat),
   madGraphData.foldl (fun m kv => if kv.2.length < m then kv.2.length else m) 10000)

/-- Embedding of `G4DarkBreMModel::SetMadGraphDataLibrary`: `parseLibrary` (file parsing,
out of scope) has produced `parsed`; throw `BadConf` when it yielded no
entries, otherwise install the library and run `MakePlaceholders`.  Returns
the resulting sample state together with the updated `maxIterations_`. -/
def SetMadGraphDataLibrary (rand : ℚ → ℚ)
    (parsed : List (ℚ × List OutgoingKinematics)) :
    Except String (SampleState × ℕ) :=
  if parsed.length = 0 then
    .error "BadConf : Unable to find any library entries"
  else
    .ok (⟨parsed, (MakePlaceholders rand parsed).1⟩, (MakePlaceholders rand parsed).2)

/-- Well-formedness of the model's in-memory library state, established by
`SetMadGraphDataLibrary`/`MakePlaceholders`: the cursor map and the event
library share their key list, the keys ascend strictly (`std::map` iteration
order), and every energy key owns at least one event (`parseLibrary` only
creates a key when it pushes an event onto it). -/
def SampleState.wf (st : SampleState) : Prop :=
  st.currentDataPoints.map Prod.fst = st.madGraphData.map Prod.fst ∧
  (st.madGraphData.map Prod.fst).Sorted (· < ·) ∧
  ∀ p ∈ st.madGraphData, p.2 ≠ []

/-- A two-energy example library: one event recorded at 2 GeV and one at
4 GeV, distinguishable through their incident energies. -/
def exLib : List (ℚ × List OutgoingKinematics) :=
  [(2, [⟨⟨0, 0, 0, 1⟩, ⟨0, 0, 0, 2⟩, 2⟩]),
   (4, [⟨⟨0, 0, 0, 3⟩, ⟨0, 0, 0, 4⟩, 4⟩])]

/-- The example library paired with zeroed cursors. -/
def exState : SampleState := ⟨exLib, [(2, 0), (4, 0)]⟩

/-! ## Cross-section estimator skeleton

`ComputeCrossSectionPerAtom` performs a threshold check, runs a Gauss-Kronrod
numerical integration of the differential cross section (a different integrand
for muons and for electrons), converts units, and clamps negative round-off to
zero.  The numerical integration itself is floating-point quadrature over a
transcendental integrand, so it is abstracted here as an oracle
`integrate muons lepton_ke A Z` standing for the value of `integrated_xsec`;
the control flow around it is embedded from the source. -/

/-- CLHEP `GeV` in internal (MeV-based) units. -/
def GeV : ℚ := 1000

/-- CLHEP `keV` in internal (MeV-based) units. -/
def keV : ℚ := 1 / 1000

/-- CLHEP `picobarn` in internal units (`barn = 1e-28 m^2`, `meter = 1e3 mm`). -/
def picobarn : ℚ := 1 / 10 ^ 34

/-- The `GeVtoPb = 3.894E08` conversion factor of `ComputeCrossSectionPerAtom`. -/
def GeVtoPb : ℚ := 3894 * 10 ^ 5

/-- The configuration fields of `G4DarkBreMModel` relevant to the cross-section
computation, as set by the constructor. -/
structure ModelCfg where
  muons : Bool
  maxIterations : ℕ
  threshold : ℚ
  epsilon : ℚ
  method : DarkBremMethod
deriving DecidableEq

/-- The `G4DarkBreMModel` constructor: `threshold_` is the maximum of the
user-supplied threshold and twice the A' mass (`APrimeMass`, in internal MeV
units) converted to GeV; the method name is matched against the three accepted
strings and anything else throws. -/
def mkG4DarkBreMModel (method_name : String) (threshold epsilon APrimeMass : ℚ)
    (muons : Bool) : Except String ModelCfg :=
  let threshold_ := max threshold (2 * APrimeMass / GeV)
  if method_name = "forward_only" then
    .ok ⟨muons, 10000, threshold_, epsilon, .ForwardOnly⟩
  else if method_name = "cm_scaling" then
    .ok ⟨muons, 10000, threshold_, epsilon, .CMScaling⟩
  else if method_name = "undefined" then
    .ok ⟨muons, 10000, threshold_, epsilon, .Undefined⟩
  else
    .error ("Invalid dark brem interpretaion/scaling method " ++ method_name ++ ".")

/-- Embedding of `G4DarkBreMModel::ComputeCrossSectionPerAtom`: return `0.` below the keV
floor or below `threshold_*GeV`; otherwise run the numerical integration
(abstracted by the oracle `integrate`, which receives the lepton-species flag
selecting between the two integrands), convert `GeV` units to Geant4 units,
and clamp a negative result to `0.`. -/
def ComputeCrossSectionPerAtom (integrate : Bool → ℚ → ℚ → ℚ → ℚ) (cfg : ModelCfg)
    (lepton_ke A Z : ℚ) : ℚ :=
  if lepton_ke < keV ∨ lepton_ke < cfg.threshold * GeV then 0
  -- `integrate cfg.muons lepton_ke A Z * GeVtoPb * picobarn` is the source's
  -- `cross = integrated_xsec * GeVtoPb * CLHEP::picobarn`
  else if integrate cfg.muons lepton_ke A Z * GeVtoPb * picobarn < 0 then 0
  else integrate cfg.muons lepton_ke A Z * GeVtoPb * picobarn

/-! ## ElementXsecCache

`ElementXsecCache` holds a `std::map<unsigned long int, G4double>` keyed by the
packed `(Z, A, energy)` triple and a `shared_ptr` to the estimator model; the
estimator's `ComputeCrossSectionPerAtom` is modelled as a rational-valued
function.  The map over `unsigned long int` keys is modelled as an association
list over `ℕ` with the same `at`/`operator[]` semantics as `mapAt`/`mapSet`. -/

namespace ElementXsecCache

/-- Model of `std::map<key_t, G4double>::at` (cf. `mapAt`). -/
def mapAtN (m : List (ℕ × ℚ)) (k : ℕ) : Option ℚ :=
  match m with
  | [] => none
  | (k', v) :: rest => if k = k' then some v else mapAtN rest k

/-- Model of `std::map<key_t, G4double>::operator[] = v` (cf. `mapSet`). -/
def mapSetN (m : List (ℕ × ℚ)) (k : ℕ) (v : ℚ) : List (ℕ × ℚ) :=
  match m with
  | [] => [(k, v)]
  | (k', v') :: rest => if k = k' then (k, v) :: rest else (k', v') :: mapSetN rest k v

/-- Constant `ElementXsecCache::MAX_A`. -/
def MAX_A : ℕ := 1000

/-- Constant `ElementXsecCache::MAX_E`. -/
def MAX_E : ℕ := 1500000

/-- Embedding of `ElementXsecCache::computeKey`: the three inputs are implicitly converted
from `double` to `unsigned long int` (truncation, i.e. floor for the
non-negative physical inputs) and packed as `(Z*MAX_A + A)*MAX_E + E`;
`key_t` arithmetic is modulo `2^64`. -/
def computeKey (energy A Z : ℚ) : ℕ :=
  let energyKey := (⌊energy⌋).toNat
  let AKey := (⌊A⌋).toNat
  let ZKey := (⌊Z⌋).toNat
  ((ZKey * MAX_A + AKey) * MAX_E + energyKey) % 2 ^ 64

end ElementXsecCache

/-- The state of an `ElementXsecCache`: the memo map `the_cache_` and the
(optional) bound estimator `model_`, abstracted to the cross-section function
it computes. -/
structure ElementXsecCache where
  the_cache : List (ℕ × ℚ)
  model : Option (ℚ → ℚ → ℚ → ℚ)

namespace ElementXsecCache

/-- Embedding of `ElementXsecCache::get`: compute the key; on a cache miss, throw when no
model is bound, otherwise invoke the estimator and store the result under the
key; finally return the stored value.  The result carries the value (or the
thrown message), the updated cache state, and whether the estimator was
invoked. -/
def get (c : ElementXsecCache) (energy A Z : ℚ) :
    Except String ℚ × ElementXsecCache × Bool :=
  match mapAtN c.the_cache (computeKey energy A Z) with
  | some v => (.ok v, c, false)
  | none =>
    match c.model with
    | none =>
        (.error "ElementXsecCache not given a model to calculate cross sections with.",
         c, false)
    | some m =>
        -- `the_cache_[key] = ...` followed by `the_cache_.at(key)` returns the
        -- value just stored
        (.ok (m energy A Z),
         ⟨mapSetN c.the_cache (computeKey energy A Z) (m energy A Z), c.model⟩, true)

/-- A sequence of `get` calls, threading the cache state and counting how many
times the underlying estimator was invoked. -/
def runGets (c : ElementXsecCache) : List (ℚ × ℚ × ℚ) →
    List (Except String ℚ) × ElementXsecCache × ℕ
  | [] => ([], c, 0)
  | (e, A, Z) :: rest =>
    let r := get c e A Z
    let rec' := runGets r.2.1 rest
    (r.1 :: rec'.1, rec'.2.1, (if r.2.2 then 1 else 0) + rec'.2.2)

end ElementXsecCache

/-! ## Kinematic rescaling (`G4DarkBreMModel::scale`)

The rescaling works with CLHEP `HepLorentzVector` / `Hep3Vector` operations
(`perp`, `mag`, `boostVector`, `boost`, `setMag`) and the libm functions
`sqrt`, `asin`, `sin`, `cos`; these are embedded over the reals following
the CLHEP sources.  The successive results of the `sample()` calls made by
`scale` are abstracted as a stream `draw : ℕ → OutgoingKinematics` (the
library state threading of `sample` itself is verified separately above),
and the single `G4UniformRand()*2*pi` azimuthal draw as the input `phi`. -/

namespace Scaling

/-- CLHEP `GeV` over the reals. -/
noncomputable def GeV : ℝ := 1000

/-- Type `G4ThreeVector` (CLHEP `Hep3Vector`). -/
structure ThreeVector where
  x : ℝ
  y : ℝ
  z : ℝ

/-- Embedding of `Hep3Vector::mag`: `sqrt(x*x + y*y + z*z)`. -/
noncomputable def mag (u : ThreeVector) : ℝ :=
  Real.sqrt (u.x * u.x + u.y * u.y + u.z * u.z)

/-- Scalar multiple of a `Hep3Vector` (CLHEP `operator*`). -/
def smul3 (c : ℝ) (u : ThreeVector) : ThreeVector :=
  ⟨c * u.x, c * u.y, c * u.z⟩

/-- Embedding of `Hep3Vector::setMag`: rescale the vector to the given magnitude by
multiplying with `ma/mag()`; a zero vector is left unchanged (CLHEP only
emits a warning in that case). -/
noncomputable def setMag (u : ThreeVector) (ma : ℝ) : ThreeVector :=
  if mag u = 0 then u else smul3 (ma / mag u) u

/-- Embedding of `HepLorentzVector::perp`: transverse component `sqrt(x*x + y*y)`. -/
noncomputable def perp (v : LorentzVector) : ℝ :=
  Real.sqrt (v.px * v.px + v.py * v.py)

/-- Embedding of `HepLorentzVector::vect().mag()`. -/
noncomputable def vectMag (v : LorentzVector) : ℝ :=
  Real.sqrt (v.px * v.px + v.py * v.py + v.pz * v.pz)

/-- Embedding of `HepLorentzVector::boostVector`: `(x/t, y/t, z/t)`. -/
noncomputable def boostVector (v : LorentzVector) : ThreeVector :=
  ⟨v.px / v.e, v.py / v.e, v.pz / v.e⟩

/-- Embedding of `HepLorentzVector::boost(bx, by, bz)` following the CLHEP implementation. -/
noncomputable def boost (v : LorentzVector) (b : ThreeVector) : LorentzVector :=
  let b2 := b.x * b.x + b.y * b.y + b.z * b.z
  let ggamma := 1 / Real.sqrt (1 - b2)
  let bp := b.x * v.px + b.y * v.py + b.z * v.pz
  let gamma2 := if b2 > 0 then (ggamma - 1) / b2 else 0
  ⟨v.px + gamma2 * bp * b.x + ggamma * b.x * v.e,
   v.py + gamma2 * bp * b.y + ggamma * b.y * v.e,
   v.pz + gamma2 * bp * b.z + ggamma * b.z * v.e,
   ggamma * (v.e + bp)⟩

/-- The linear kinetic-energy rescaling of `scale`:
`EAcc = (e - m) * ((E0 - m - MA)/(E_sample - m - MA)) + m`. -/
noncomputable def scaledEAcc (incident_energy lepton_mass MA : ℝ)
    (data : OutgoingKinematics) : ℝ :=
  (data.lepton.e - lepton_mass) *
      ((incident_energy - lepton_mass - MA) / (data.E - lepton_mass - MA)) +
    lepton_mass

/-- The forward-only retry loop of `scale`: while the sample's transverse
momentum is kinematically incompatible (`Pt*Pt + m*m > EAcc*EAcc`), increment
the iteration counter, draw a fresh sample, and — once the counter exceeds
`maxIterations_` — print the diagnostic and break out with the last drawn
sample.  Returns the sample in use at exit, the number of in-loop draws, and
whether the diagnostic was emitted. -/
noncomputable def forwardOnlyLoop (draw : ℕ → OutgoingKinematics)
    (incident_energy lepton_mass MA : ℝ) (maxIterations : ℕ)
    (i : ℕ) (data : OutgoingKinematics) : OutgoingKinematics × ℕ × Bool :=
  -- the loop condition `Pt*Pt + m*m > EAcc*EAcc` with the sample's `Pt` and
  -- the linearly rescaled `EAcc`
  if perp data.lepton * perp data.lepton + lepton_mass * lepton_mass >
      scaledEAcc incident_energy lepton_mass MA data *
        scaledEAcc incident_energy lepton_mass MA data then
    if _h : i + 1 > maxIterations then (draw (i + 1), i + 1, true)
    else forwardOnlyLoop draw incident_energy lepton_mass MA maxIterations (i + 1)
      (draw (i + 1))
  else (data, i, false)
termination_by maxIterations + 1 - i
decreasing_by omega

/-- The common tail of `scale`: build the recoil direction from
`ThetaAcc = asin(Pt/P)` and the azimuth `phi`, then set its magnitude to
`sqrt(EAcc*EAcc - m*m) * GeV`. -/
noncomputable def mkRecoil (EAcc Pt P lepton_mass phi : ℝ) : ThreeVector :=
  -- `ThetaAcc = asin(Pt/P)`; the direction vector, then
  -- `setMag` to `recoilMag = sqrt(EAcc*EAcc - m*m)*GeV`
  setMag
    ⟨Real.sin (Real.arcsin (Pt / P)) * Real.cos phi,
     Real.sin (Real.arcsin (Pt / P)) * Real.sin phi,
     Real.cos (Real.arcsin (Pt / P))⟩
    (Real.sqrt (EAcc * EAcc - lepton_mass * lepton_mass) * GeV)

/-- The result of one `scale` call: the recoil three-momentum together with
the observable intermediates (the scaled total energy `EAcc` the call settled
on, the total number of `sample()` calls made, and whether the forward-only
retry diagnostic was emitted). -/
structure ScaleResult where
  recoil : ThreeVector
  EAcc : ℝ
  draws : ℕ
  diagnostic : Bool

/-- Embedding of `G4DarkBreMModel::scale`: draw a sample, compute the scaled energy and
transverse momentum according to the configured method (with the retry loop
for `ForwardOnly`, the double boost for `CMScaling`, and a plain copy for
`Undefined`), and build the recoil vector. -/
noncomputable def scale (method : DarkBremMethod) (MA : ℝ) (maxIterations : ℕ)
    (draw : ℕ → OutgoingKinematics) (phi : ℝ)
    (incident_energy lepton_mass : ℝ) : ScaleResult :=
  let data0 := draw 0
  match method with
  | .ForwardOnly =>
    let r := forwardOnlyLoop draw incident_energy lepton_mass MA maxIterations 0 data0
    let data := r.1
    let EAcc := scaledEAcc incident_energy lepton_mass MA data
    let Pt := perp data.lepton
    let P := Real.sqrt (EAcc * EAcc - lepton_mass * lepton_mass)
    ⟨mkRecoil EAcc Pt P lepton_mass phi, EAcc, r.2.1 + 1, r.2.2⟩
  | .CMScaling =>
    let el0 := data0.lepton
    let ediff := data0.E - incident_energy
    let cm := data0.centerMomentum
    let newcm : LorentzVector := ⟨cm.px, cm.py, cm.pz - ediff, cm.e - ediff⟩
    let el1 := boost el0 (smul3 (-1) (boostVector cm))
    let el2 := boost el1 (boostVector newcm)
    let newE := scaledEAcc incident_energy lepton_mass MA data0
    let el3 : LorentzVector := ⟨el2.px, el2.py, el2.pz, newE⟩
    let EAcc := el3.e
    let Pt := perp el3
    let P := vectMag el3
    ⟨mkRecoil EAcc Pt P lepton_mass phi, EAcc, 1, false⟩
  | .Undefined =>
    let EAcc := data0.lepton.e
    let P := Real.sqrt (EAcc * EAcc - lepton_mass * lepton_mass)
    let Pt := perp data0.lepton
    ⟨mkRecoil EAcc Pt P lepton_mass phi, EAcc, 1, false⟩

end Scaling

/-! # Theorems -/

/-! ## Event-library map lemmas -/

theorem mapAt_mapSet_self {α : Type} (m : List (ℚ × α)) (k : ℚ) (v : α) :
    mapAt (mapSet m k v) k = some v := by
  induction m with
  | nil => simp [mapSet, mapAt]
  | cons p rest ih =>
    obtain ⟨k', v'⟩ := p
    by_cases h : k = k'
    · simp [mapSet, h, mapAt]
    · simp [mapSet, h, mapAt, ih]

theorem mapAt_of_mem_keys {α : Type} (m : List (ℚ × α)) (k : ℚ)
    (h : k ∈ m.map Prod.fst) : ∃ v, mapAt m k = some v ∧ (k, v) ∈ m := by
  induction m with
  | nil => simp at h
  | cons p rest ih =>
    obtain ⟨k', v'⟩ := p
    by_cases hk : k = k'
    · subst hk
      exact ⟨v', by simp [mapAt], List.mem_cons_self _ _⟩
    · have h' : k ∈ rest.map Prod.fst := by
        rcases List.mem_map.mp h with ⟨q, hq, hq1⟩
        rcases List.mem_cons.mp hq with rfl | hq'
        · exact absurd hq1.symm hk
        · exact List.mem_map.mpr ⟨q, hq', hq1⟩
      obtain ⟨v, hv, hmem⟩ := ih h'
      exact ⟨v, by simp [mapAt, hk, hv], List.mem_cons_of_mem _ hmem⟩

theorem getLastD_mem (l : List ℚ) (d : ℚ) (h : l ≠ []) : l.getLastD d ∈ l := by
  induction l generalizing d with
  | nil => exact absurd rfl h
  | cons a rest ih =>
    rw [List.getLastD_cons]
    cases rest with
    | nil => simp [List.getLastD]
    | cons b rest' => exact List.mem_cons_of_mem _ (ih a (by simp))

/-! ## Key-selection lemmas for `sample` -/

theorem selectKeyLoop_all_le (E0 : ℚ) (keys : List ℚ) (acc : ℚ)
    (h : ∀ k ∈ keys, ¬E0 < k) :
    selectKeyLoop E0 keys acc = keys.getLastD acc := by
  induction keys generalizing acc with
  | nil => rfl
  | cons k rest ih =>
    rw [selectKeyLoop, if_neg (h k (List.mem_cons_self _ _)),
        ih k (fun k' h' => h k' (List.mem_cons_of_mem _ h')), List.getLastD_cons]

theorem selectKeyLoop_min_above (E0 : ℚ) (keys : List ℚ)
    (hs : keys.Sorted (· < ·)) (hex : ∃ k ∈ keys, E0 < k) (acc : ℚ) :
    selectKeyLoop E0 keys acc ∈ keys ∧ E0 < selectKeyLoop E0 keys acc ∧
      ∀ k ∈ keys, E0 < k → selectKeyLoop E0 keys acc ≤ k := by
  induction keys generalizing acc with
  | nil => simp at hex
  | cons k rest ih =>
    have hs' := (List.sorted_cons.mp hs).2
    have hka := (List.sorted_cons.mp hs).1
    by_cases h : E0 < k
    · rw [selectKeyLoop, if_pos h]
      refine ⟨List.mem_cons_self _ _, h, ?_⟩
      intro k' hk' _
      rcases List.mem_cons.mp hk' with rfl | h'
      · exact le_refl k'
      · exact le_of_lt (hka k' h')
    · rw [selectKeyLoop, if_neg h]
      have hex' : ∃ k' ∈ rest, E0 < k' := by
        rcases hex with ⟨k', hk', hE⟩
        rcases List.mem_cons.mp hk' with rfl | h'
        · exact absurd hE h
        · exact ⟨k', h', hE⟩
      obtain ⟨h1, h2, h3⟩ := ih hs' hex' k
      refine ⟨List.mem_cons_of_mem _ h1, h2, ?_⟩
      intro k' hk' hE
      rcases List.mem_cons.mp hk' with rfl | h'
      · exact absurd hE h
      · exact h3 k' h' hE

/-- The core success property of `sample`: when the selected key is present in
both maps with a non-empty event sequence, `sample` reads within bounds, the
returned event belongs to the sequence, and the cursor advances to one past
the (possibly wrapped) read position. -/
theorem sample_spec (st : SampleState) (E0 : ℚ) (cursor : ℕ)
    (seq : List OutgoingKinematics)
    (hcur : mapAt st.currentDataPoints (sampledKey st E0) = some cursor)
    (hdata : mapAt st.madGraphData (sampledKey st E0) = some seq)
    (hne : seq ≠ []) :
    ∃ evt st', sample st E0 = some (evt, st') ∧
      seq[if cursor ≥ seq.length then 0 else cursor]? = some evt ∧
      evt ∈ seq ∧
      st'.madGraphData = st.madGraphData ∧
      mapAt st'.currentDataPoints (sampledKey st E0) =
        some ((if cursor ≥ seq.length then 0 else cursor) + 1) ∧
      (if cursor ≥ seq.length then 0 else cursor) + 1 ≤ seq.length := by
  have hlen : 0 < seq.length := List.length_pos.mpr hne
  have hidx : (if cursor ≥ seq.length then 0 else cursor) < seq.length := by
    split_ifs with h
    · exact hlen
    · omega
  refine ⟨seq[if cursor ≥ seq.length then 0 else cursor],
    ⟨st.madGraphData,
     mapSet st.currentDataPoints (sampledKey st E0)
       ((if cursor ≥ seq.length then 0 else cursor) + 1)⟩,
    ?_, List.getElem?_eq_getElem hidx, List.getElem_mem hidx, rfl, ?_, by omega⟩
  · unfold sample
    rw [hcur, hdata]
    dsimp only
    rw [List.getElem?_eq_getElem hidx]
  · exact mapAt_mapSet_self _ _ _

/-- C10: `sample` never reads a sequence out of range.  When the selected
key's cursor and sequence are present and the sequence is non-empty: the call
succeeds, the returned element is a member of the selected sequence, a cursor
at or past the end is reset so that the read happens at index zero, and the
cursor left behind is at most the sequence length. -/
theorem sample_reads_in_range (st : SampleState) (E0 : ℚ) (cursor : ℕ)
    (seq : List OutgoingKinematics)
    (hcur : mapAt st.currentDataPoints (sampledKey st E0) = some cursor)
    (hdata : mapAt st.madGraphData (sampledKey st E0) = some seq)
    (hne : seq ≠ []) :
    ∃ evt st', sample st E0 = some (evt, st') ∧ evt ∈ seq ∧
      (seq.length ≤ cursor → seq[0]? = some evt) ∧
      ∃ c', mapAt st'.currentDataPoints (sampledKey st E0) = some c' ∧
        c' ≤ seq.length := by
  obtain ⟨evt, st', h1, h2, h3, _, h5, h6⟩ := sample_spec st E0 cursor seq hcur hdata hne
  refine ⟨evt, st', h1, h3, fun h => ?_, _, h5, h6⟩
  rwa [if_pos h] at h2

/-- Witness for `sample_reads_in_range` on the two-energy example library with
the key-4 cursor already past the end of its one-event sequence. -/
theorem sample_reads_in_range_witness :
    ∃ evt st', sample ⟨exLib, [(2, 0), (4, 7)]⟩ 3 = some (evt, st') ∧
      evt ∈ [(⟨⟨0, 0, 0, 3⟩, ⟨0, 0, 0, 4⟩, 4⟩ : OutgoingKinematics)] ∧
      (([(⟨⟨0, 0, 0, 3⟩, ⟨0, 0, 0, 4⟩, (4:ℝ)⟩ : OutgoingKinematics)]).length ≤ 7 →
        [(⟨⟨0, 0, 0, 3⟩, ⟨0, 0, 0, 4⟩, (4:ℝ)⟩ : OutgoingKinematics)][0]? = some evt) ∧
      ∃ c', mapAt st'.currentDataPoints (sampledKey ⟨exLib, [(2, 0), (4, 7)]⟩ 3) = some c' ∧
        c' ≤ ([(⟨⟨0, 0, 0, 3⟩, ⟨0, 0, 0, 4⟩, (4:ℝ)⟩ : OutgoingKinematics)]).length :=
  sample_reads_in_range ⟨exLib, [(2, 0), (4, 7)]⟩ 3 7
    [⟨⟨0, 0, 0, 3⟩, ⟨0, 0, 0, 4⟩, 4⟩]
    (by norm_num [mapAt, sampledKey, selectKeyLoop])
    (by norm_num [mapAt, sampledKey, selectKeyLoop, exLib])
    (by simp)

/-- C9: loading the event library fails with the `BadConf` error exactly when
the parse produced zero entries; on success the installed library is the
(non-empty) parsed map, and a `sample` call on the loaded state never fails by
exhausting a key's sequence: whatever value the randomized cursor holds, the
call succeeds because the cursor wraps to index zero. -/
theorem load_library_spec (rand : ℚ → ℚ)
    (parsed : List (ℚ × List OutgoingKinematics)) :
    ((∃ msg, SetMadGraphDataLibrary rand parsed = .error msg) ↔ parsed = []) ∧
    (∀ st maxIter, SetMadGraphDataLibrary rand parsed = .ok (st, maxIter) →
      st.madGraphData = parsed ∧ st.madGraphData ≠ [] ∧
      ∀ E0 cursor seq,
        mapAt st.currentDataPoints (sampledKey st E0) = some cursor →
        mapAt st.madGraphData (sampledKey st E0) = some seq →
        seq ≠ [] → (sample st E0).isSome) := by
  by_cases hp : parsed = []
  · subst hp
    constructor
    · exact ⟨fun _ => rfl, fun _ => ⟨"BadConf : Unable to find any library entries", rfl⟩⟩
    · intro st maxIter h
      exact absurd h (by simp [SetMadGraphDataLibrary])
  · have hlen : ¬parsed.length = 0 := fun h => hp (List.length_eq_zero.mp h)
    constructor
    · constructor
      · rintro ⟨msg, h⟩
        rw [SetMadGraphDataLibrary, if_neg hlen] at h
        exact absurd h (by simp)
      · intro h
        exact absurd h hp
    · intro st maxIter h
      rw [SetMadGraphDataLibrary, if_neg hlen] at h
      simp only [Except.ok.injEq, Prod.mk.injEq] at h
      obtain ⟨hst, _⟩ := h
      subst hst
      refine ⟨rfl, hp, ?_⟩
      intro E0 cursor seq hcur hdata hne
      obtain ⟨evt, st', h1, _⟩ := sample_spec _ E0 cursor seq hcur hdata hne
      rw [h1]
      rfl

/-- C1 counterexample: on the library with keys 2 and 4, a requested energy
of exactly 2 — equal to a stored key — does not return a sample from the
key-2 sequence as the claim demands: the scan selects the key strictly above
(4), and the returned event is the key-4 event, which does not belong to the
key-2 sequence. -/
theorem sample_exact_key_counterexample :
    sampledKey exState 2 = 4 ∧
    sample exState 2 =
      some (⟨⟨0, 0, 0, 3⟩, ⟨0, 0, 0, 4⟩, 4⟩, ⟨exLib, [(2, 0), (4, 1)]⟩) ∧
    mapAt exState.madGraphData 2 = some [⟨⟨0, 0, 0, 1⟩, ⟨0, 0, 0, 2⟩, 2⟩] ∧
    (⟨⟨0, 0, 0, 3⟩, ⟨0, 0, 0, 4⟩, 4⟩ : OutgoingKinematics) ∉
      [(⟨⟨0, 0, 0, 1⟩, ⟨0, 0, 0, 2⟩, (2:ℝ)⟩ : OutgoingKinematics)] := by
  refine ⟨?_, ?_, ?_, ?_⟩
  · norm_num [sampledKey, selectKeyLoop, exState]
  · norm_num [sample, sampledKey, selectKeyLoop, mapAt, mapSet, exState, exLib]
  · norm_num [mapAt, exState, exLib]
  · intro h
    rcases List.mem_singleton.mp h with h
    have := congrArg OutgoingKinematics.E h
    norm_num at this

/-- C1 (amended): for a well-formed library state, the query selects the
smallest stored key *strictly greater* than the requested energy when one
exists — so a requested energy equal to a non-maximal stored key selects the
next higher key, not that key — and when no key is greater (in particular for
a requested energy equal to, or above, the maximum key) it selects the last
(largest) key; the returned sample is read from the selected key's sequence. -/
theorem sample_selects_smallest_key_strictly_above (st : SampleState)
    (hwf : st.wf) (E0 : ℚ) :
    ((∃ k ∈ st.madGraphData.map Prod.fst, E0 < k) →
      sampledKey st E0 ∈ st.madGraphData.map Prod.fst ∧ E0 < sampledKey st E0 ∧
      ∀ k ∈ st.madGraphData.map Prod.fst, E0 < k → sampledKey st E0 ≤ k) ∧
    ((∀ k ∈ st.madGraphData.map Prod.fst, k ≤ E0) →
      sampledKey st E0 = (st.madGraphData.map Prod.fst).getLastD 0) ∧
    (st.madGraphData ≠ [] →
      ∃ evt st' seq, sample st E0 = some (evt, st') ∧
        mapAt st.madGraphData (sampledKey st E0) = some seq ∧ evt ∈ seq) := by
  obtain ⟨hkeys, hsorted, hne⟩ := hwf
  have hk : sampledKey st E0 = selectKeyLoop E0 (st.madGraphData.map Prod.fst) 0 := by
    rw [sampledKey, hkeys]
  refine ⟨?_, ?_, ?_⟩
  · intro hex
    rw [hk]
    exact selectKeyLoop_min_above E0 _ hsorted hex 0
  · intro hall
    rw [hk]
    exact selectKeyLoop_all_le E0 _ 0 fun k hmem => not_lt.mpr (hall k hmem)
  · intro hlib
    have hklist : st.madGraphData.map Prod.fst ≠ [] := by
      simpa using hlib
    have hmem : sampledKey st E0 ∈ st.madGraphData.map Prod.fst := by
      by_cases hex : ∃ k ∈ st.madGraphData.map Prod.fst, E0 < k
      · rw [hk]
        exact (selectKeyLoop_min_above E0 _ hsorted hex 0).1
      · rw [hk, selectKeyLoop_all_le E0 _ 0 fun k hmemk hEk => hex ⟨k, hmemk, hEk⟩]
        exact getLastD_mem _ 0 hklist
    obtain ⟨seq, hseq, hpair⟩ := mapAt_of_mem_keys _ _ hmem
    obtain ⟨c, hc, _⟩ := mapAt_of_mem_keys st.currentDataPoints (sampledKey st E0)
      (by rw [hkeys]; exact hmem)
    obtain ⟨evt, st', h1, _, h3, _⟩ :=
      sample_spec st E0 c seq hc hseq (hne _ hpair)
    exact ⟨evt, st', seq, h1, hseq, h3⟩

/-- Witness for `sample_selects_smallest_key_strictly_above` on the
two-energy example state at a requested energy of 3. -/
theorem sample_selects_smallest_key_strictly_above_witness :
    ((∃ k ∈ exState.madGraphData.map Prod.fst, (3:ℚ) < k) →
      sampledKey exState 3 ∈ exState.madGraphData.map Prod.fst ∧
      (3:ℚ) < sampledKey exState 3 ∧
      ∀ k ∈ exState.madGraphData.map Prod.fst, (3:ℚ) < k → sampledKey exState 3 ≤ k) ∧
    ((∀ k ∈ exState.madGraphData.map Prod.fst, k ≤ (3:ℚ)) →
      sampledKey exState 3 = (exState.madGraphData.map Prod.fst).getLastD 0) ∧
    (exState.madGraphData ≠ [] →
      ∃ evt st' seq, sample exState 3 = some (evt, st') ∧
        mapAt exState.madGraphData (sampledKey exState 3) = some seq ∧ evt ∈ seq) :=
  sample_selects_smallest_key_strictly_above exState
    ⟨rfl, by norm_num [exState, exLib, List.sorted_cons], by
      intro p hp
      rw [exState] at hp
      fin_cases hp <;> simp⟩ 3

/-- Witness for `load_library_spec`, instantiated at the two-energy example
library with all random cursor draws at zero. -/
theorem load_library_spec_witness :
    ((∃ msg, SetMadGraphDataLibrary (fun _ => 0) exLib = .error msg) ↔ exLib = []) ∧
    (∀ st maxIter, SetMadGraphDataLibrary (fun _ => 0) exLib = .ok (st, maxIter) →
      st.madGraphData = exLib ∧ st.madGraphData ≠ [] ∧
      ∀ E0 cursor seq,
        mapAt st.currentDataPoints (sampledKey st E0) = some cursor →
        mapAt st.madGraphData (sampledKey st E0) = some seq →
        seq ≠ [] → (sample st E0).isSome) :=
  load_library_spec (fun _ => 0) exLib

namespace ElementXsecCache

theorem mapAtN_mapSetN_self (m : List (ℕ × ℚ)) (k : ℕ) (v : ℚ) :
    mapAtN (mapSetN m k v) k = some v := by
  induction m with
  | nil => simp [mapSetN, mapAtN]
  | cons p rest ih =>
    obtain ⟨k', v'⟩ := p
    by_cases h : k = k'
    · simp [mapSetN, h, mapAtN]
    · simp [mapSetN, h, mapAtN, ih]

theorem get_hit (c : ElementXsecCache) (e A Z : ℚ) (v : ℚ)
    (h : mapAtN c.the_cache (computeKey e A Z) = some v) :
    get c e A Z = (.ok v, c, false) := by
  unfold get
  rw [h]

theorem get_miss (c : ElementXsecCache) (e A Z : ℚ) (f : ℚ → ℚ → ℚ → ℚ)
    (h : mapAtN c.the_cache (computeKey e A Z) = none) (hm : c.model = some f) :
    get c e A Z =
      (.ok (f e A Z), ⟨mapSetN c.the_cache (computeKey e A Z) (f e A Z), c.model⟩, true) := by
  unfold get
  rw [h, hm]

theorem get_unbound (c : ElementXsecCache) (e A Z : ℚ)
    (h : mapAtN c.the_cache (computeKey e A Z) = none) (hm : c.model = none) :
    get c e A Z =
      (.error "ElementXsecCache not given a model to calculate cross sections with.",
       c, false) := by
  unfold get
  rw [h, hm]

theorem runGets_all_hit (k : ℕ) (v : ℚ) (c : ElementXsecCache)
    (inputs : List (ℚ × ℚ × ℚ))
    (hkeys : ∀ p ∈ inputs, computeKey p.1 p.2.1 p.2.2 = k)
    (hv : mapAtN c.the_cache k = some v) :
    runGets c inputs = (inputs.map fun _ => Except.ok v, c, 0) := by
  induction inputs generalizing c with
  | nil => simp [runGets]
  | cons p rest ih =>
    obtain ⟨e, A, Z⟩ := p
    have hk : computeKey e A Z = k := hkeys (e, A, Z) (List.mem_cons_self _ _)
    have h1 : get c e A Z = (.ok v, c, false) := get_hit c e A Z v (by rw [hk]; exact hv)
    have h2 := ih c (fun q hq => hkeys q (List.mem_cons_of_mem (e, A, Z) hq)) hv
    simp [runGets, h1, h2]

/-- C6: calling `get` on an `ElementXsecCache` with no bound estimator throws
the descriptive configuration-error message, and the failed call leaves the
cache's stored contents (indeed the whole cache state) unchanged.  An unbound
cache necessarily has an empty memo map, since `get` only inserts entries
after the model check has passed. -/
theorem unbound_cache_get_fails (c : ElementXsecCache) (hmodel : c.model = none)
    (hcache : c.the_cache = []) (energy A Z : ℚ) :
    (get c energy A Z).1 =
      Except.error "ElementXsecCache not given a model to calculate cross sections with." ∧
    (get c energy A Z).2.1 = c := by
  have h : mapAtN c.the_cache (computeKey energy A Z) = none := by
    rw [hcache]; rfl
  rw [get_unbound c energy A Z h hmodel]
  exact ⟨rfl, rfl⟩

/-- Witness for `unbound_cache_get_fails` at the default-constructed cache
and a concrete tungsten query. -/
theorem unbound_cache_get_fails_witness :
    (get ⟨[], none⟩ 4000 184 74).1 =
      Except.error "ElementXsecCache not given a model to calculate cross sections with." ∧
    (get ⟨[], none⟩ 4000 184 74).2.1 = ⟨[], none⟩ :=
  unbound_cache_get_fails ⟨[], none⟩ rfl rfl 4000 184 74

/-- C4: for a bound cache, a sequence of `get` calls whose arguments all pack
to the same key invokes the underlying estimator at most once in total, and
every call returns the identical cached value. -/
theorem cache_get_at_most_once (c : ElementXsecCache) (f : ℚ → ℚ → ℚ → ℚ)
    (hm : c.model = some f) (k : ℕ) (inputs : List (ℚ × ℚ × ℚ))
    (hkeys : ∀ p ∈ inputs, computeKey p.1 p.2.1 p.2.2 = k) :
    (runGets c inputs).2.2 ≤ 1 ∧
    ∃ v : ℚ, (runGets c inputs).1 = inputs.map fun _ => Except.ok v := by
  cases inputs with
  | nil => exact ⟨by simp [runGets], 0, by simp [runGets]⟩
  | cons p rest =>
    obtain ⟨e, A, Z⟩ := p
    have hk : computeKey e A Z = k := hkeys (e, A, Z) (List.mem_cons_self _ _)
    cases hv : mapAtN c.the_cache k with
    | some v =>
      rw [runGets_all_hit k v c _ hkeys hv]
      exact ⟨by simp, v, rfl⟩
    | none =>
      have h1 : get c e A Z =
          (.ok (f e A Z), ⟨mapSetN c.the_cache k (f e A Z), c.model⟩, true) := by
        have := get_miss c e A Z f (by rw [hk]; exact hv) hm
        rw [hk] at this
        exact this
      have h2 : mapAtN (mapSetN c.the_cache k (f e A Z)) k = some (f e A Z) :=
        mapAtN_mapSetN_self c.the_cache k (f e A Z)
      have h3 := runGets_all_hit k (f e A Z)
        ⟨mapSetN c.the_cache k (f e A Z), c.model⟩ rest
        (fun q hq => hkeys q (List.mem_cons_of_mem _ hq)) h2
      refine ⟨?_, f e A Z, ?_⟩
      · simp [runGets, h1, h3]
      · simp [runGets, h1, h3]

/-- Witness for `cache_get_at_most_once`: two queries whose energies truncate
to the same MeV bucket against a freshly bound cache. -/
theorem cache_get_at_most_once_witness :
    (runGets ⟨[], some fun e a z => e + a + z⟩ [(1, 2, 3), (3/2, 2, 3)]).2.2 ≤ 1 ∧
    ∃ v : ℚ, (runGets ⟨[], some fun e a z => e + a + z⟩ [(1, 2, 3), (3/2, 2, 3)]).1 =
      [(1, 2, 3), ((3:ℚ)/2, (2:ℚ), (3:ℚ))].map fun _ => Except.ok v :=
  cache_get_at_most_once ⟨[], some fun e a z => e + a + z⟩ _ rfl
    (computeKey 1 2 3) _ (by
      intro p hp
      fin_cases hp <;> norm_num [computeKey, MAX_A, MAX_E])

end ElementXsecCache

/-- C7: `ComputeCrossSectionPerAtom` never returns a negative value under
either lepton-species integrand, and a negative value of the integration is
clamped to exactly zero. -/
theorem xsec_nonneg_and_clamped (integrate : Bool → ℚ → ℚ → ℚ → ℚ) (cfg : ModelCfg)
    (lepton_ke A Z : ℚ) :
    0 ≤ ComputeCrossSectionPerAtom integrate cfg lepton_ke A Z ∧
    (integrate cfg.muons lepton_ke A Z * GeVtoPb * picobarn < 0 →
      ComputeCrossSectionPerAtom integrate cfg lepton_ke A Z = 0) := by
  unfold ComputeCrossSectionPerAtom
  constructor
  · split_ifs with h1 h2
    · exact le_refl (0:ℚ)
    · exact le_refl (0:ℚ)
    · exact le_of_not_lt h2
  · intro hneg
    split_ifs with h1
    · rfl
    · rfl

/-- Witness for `xsec_nonneg_and_clamped` at a concrete electron-path input
whose (stubbed) integration is negative: the clamp fires. -/
theorem xsec_nonneg_and_clamped_witness :
    0 ≤ ComputeCrossSectionPerAtom (fun _ _ _ _ => -1)
          ⟨false, 10000, 0, 1, .Undefined⟩ 1 184 74 ∧
    ComputeCrossSectionPerAtom (fun _ _ _ _ => -1)
          ⟨false, 10000, 0, 1, .Undefined⟩ 1 184 74 = 0 :=
  ⟨(xsec_nonneg_and_clamped (fun _ _ _ _ => -1) ⟨false, 10000, 0, 1, .Undefined⟩ 1 184 74).1,
   (xsec_nonneg_and_clamped (fun _ _ _ _ => -1) ⟨false, 10000, 0, 1, .Undefined⟩ 1 184 74).2
     (by norm_num [GeVtoPb, picobarn])⟩

/-- C2: a model built by the constructor has its effective threshold set to
the maximum of the user threshold and twice the A' mass, and
`ComputeCrossSectionPerAtom` returns exactly zero for every `A`, `Z` whenever
the kinetic energy is below that effective threshold (expressed in internal
units: below `max (threshold*GeV) (2*APrimeMass)`). -/
theorem xsec_zero_below_threshold (integrate : Bool → ℚ → ℚ → ℚ → ℚ)
    (method_name : String) (threshold epsilon APrimeMass : ℚ) (muons : Bool)
    (cfg : ModelCfg)
    (hmk : mkG4DarkBreMModel method_name threshold epsilon APrimeMass muons = .ok cfg)
    (lepton_ke A Z : ℚ)
    (hke : lepton_ke < max (threshold * GeV) (2 * APrimeMass)) :
    ComputeCrossSectionPerAtom integrate cfg lepton_ke A Z = 0 ∧
    cfg.threshold = max threshold (2 * APrimeMass / GeV) := by
  have hth : cfg.threshold = max threshold (2 * APrimeMass / GeV) := by
    unfold mkG4DarkBreMModel at hmk
    split_ifs at hmk <;> simp only [Except.ok.injEq, reduceCtorEq] at hmk <;> rw [← hmk]
  refine ⟨?_, hth⟩
  have hlt : lepton_ke < cfg.threshold * GeV := by
    rw [hth, max_mul_of_nonneg _ _ (by norm_num [GeV] : (0:ℚ) ≤ GeV),
        div_mul_cancel₀ _ (by norm_num [GeV] : (GeV:ℚ) ≠ 0)]
    exact hke
  unfold ComputeCrossSectionPerAtom
  rw [if_pos (Or.inr hlt)]

/-- Witness for `xsec_zero_below_threshold`: a model built with threshold
0.5 GeV and a 100 MeV A' mass, queried at 100 MeV kinetic energy. -/
theorem xsec_zero_below_threshold_witness :
    ComputeCrossSectionPerAtom (fun _ _ _ _ => 1)
        ⟨false, 10000, max (1/2) (2 * 100 / GeV), 1, .Undefined⟩ 100 184 74 = 0 ∧
    (ModelCfg.mk false 10000 (max (1/2) (2 * 100 / GeV)) 1 .Undefined).threshold =
      max (1/2) (2 * 100 / GeV) :=
  xsec_zero_below_threshold (fun _ _ _ _ => 1) "undefined" (1/2) 1 100 false
    ⟨false, 10000, max (1/2) (2 * 100 / GeV), 1, .Undefined⟩ rfl 100 184 74 (by norm_num [GeV])

/-! ## Scaling-engine theorems -/

namespace Scaling

theorem mag_smul3 (c : ℝ) (u : ThreeVector) : mag (smul3 c u) = |c| * mag u := by
  unfold mag smul3
  dsimp only
  rw [show c * u.x * (c * u.x) + c * u.y * (c * u.y) + c * u.z * (c * u.z) =
        c ^ 2 * (u.x * u.x + u.y * u.y + u.z * u.z) by ring,
      Real.sqrt_mul (sq_nonneg c), Real.sqrt_sq_eq_abs]

theorem mag_direction (a phi : ℝ) :
    mag ⟨Real.sin a * Real.cos phi, Real.sin a * Real.sin phi, Real.cos a⟩ = 1 := by
  unfold mag
  dsimp only
  rw [show Real.sin a * Real.cos phi * (Real.sin a * Real.cos phi) +
        Real.sin a * Real.sin phi * (Real.sin a * Real.sin phi) +
        Real.cos a * Real.cos a =
      Real.sin a ^ 2 * (Real.sin phi ^ 2 + Real.cos phi ^ 2) + Real.cos a ^ 2 by ring,
    Real.sin_sq_add_cos_sq, mul_one, Real.sin_sq_add_cos_sq, Real.sqrt_one]

/-- The recoil three-vector built by `scale` always has magnitude
`sqrt(EAcc*EAcc - m*m) * GeV`. -/
theorem mag_mkRecoil (EAcc Pt P lepton_mass phi : ℝ) :
    mag (mkRecoil EAcc Pt P lepton_mass phi) =
      Real.sqrt (EAcc * EAcc - lepton_mass * lepton_mass) * GeV := by
  unfold mkRecoil setMag
  rw [mag_direction, if_neg one_ne_zero, mag_smul3, mag_direction, mul_one, div_one,
      abs_of_nonneg (mul_nonneg (Real.sqrt_nonneg _) (by norm_num [GeV]))]

/-- C3: under each of the three scaling policies and for any incident energy
above the lepton mass, the returned recoil three-momentum has magnitude
exactly `sqrt(EAcc^2 - m^2)` (in internal units, i.e. times `GeV`), where
`EAcc` is the total energy the policy computed for the recoil lepton. -/
theorem scale_momentum_consistent (method : DarkBremMethod) (MA : ℝ)
    (maxIterations : ℕ) (draw : ℕ → OutgoingKinematics) (phi : ℝ)
    (incident_energy lepton_mass : ℝ)
    (h : lepton_mass < incident_energy) :
    mag (scale method MA maxIterations draw phi incident_energy lepton_mass).recoil =
      Real.sqrt
        ((scale method MA maxIterations draw phi incident_energy lepton_mass).EAcc *
            (scale method MA maxIterations draw phi incident_energy lepton_mass).EAcc -
          lepton_mass * lepton_mass) * GeV := by
  cases method <;> simp only [scale] <;> exact mag_mkRecoil _ _ _ _ _

/-- Witness for `scale_momentum_consistent` at a concrete pass-through
configuration. -/
theorem scale_momentum_consistent_witness :
    mag (scale .Undefined 1 10 (fun _ => ⟨⟨0, 0, 4, 5⟩, ⟨0, 0, 0, 1⟩, 20⟩) 0 20 3).recoil =
      Real.sqrt
        ((scale .Undefined 1 10 (fun _ => ⟨⟨0, 0, 4, 5⟩, ⟨0, 0, 0, 1⟩, 20⟩) 0 20 3).EAcc *
            (scale .Undefined 1 10 (fun _ => ⟨⟨0, 0, 4, 5⟩, ⟨0, 0, 0, 1⟩, 20⟩) 0 20 3).EAcc -
          3 * 3) * GeV :=
  scale_momentum_consistent .Undefined 1 10 (fun _ => ⟨⟨0, 0, 4, 5⟩, ⟨0, 0, 0, 1⟩, 20⟩) 0 20 3
    (by norm_num)

/-- For a sample with vanishing transverse momentum and azimuth 0, the recoil
vector built by `scale` is `(0, 0, sqrt(EAcc*EAcc - m*m)*GeV)`. -/
theorem mkRecoil_of_Pt_zero (EAcc P lepton_mass : ℝ) :
    mkRecoil EAcc 0 P lepton_mass 0 =
      ⟨0, 0, Real.sqrt (EAcc * EAcc - lepton_mass * lepton_mass) * GeV⟩ := by
  unfold mkRecoil setMag
  rw [zero_div, Real.arcsin_zero, Real.sin_zero, Real.cos_zero]
  have hm : mag ⟨0 * 1, 0 * 0, (1:ℝ)⟩ = 1 := by
    unfold mag
    dsimp only
    norm_num [Real.sqrt_one]
  rw [hm, if_neg one_ne_zero]
  unfold smul3
  norm_num

/-- C5 counterexample: under the unscaled (`Undefined`) policy the output is
*not* the stored sample's momentum.  For the on-shell stored recoil
`(px, py, pz, e) = (0, 0, -4, 5)` with lepton mass 3, the returned vector is
`(0, 0, 4000)` (in MeV, z-component positive), while the stored momentum is
`(0, 0, -4)` (in GeV, z-component negative): the vector is rebuilt from a
fresh azimuth with a forced non-negative longitudinal component and rescaled
by the unit conversion, so it differs from the recorded kinematics. -/
theorem scale_unscaled_not_passthrough :
    (scale .Undefined (1/2) 10 (fun _ => ⟨⟨0, 0, -4, 5⟩, ⟨0, 0, 0, 1⟩, 5⟩)
        0 5 3).recoil = ⟨0, 0, 4000⟩ ∧
    ((⟨⟨0, 0, -4, 5⟩, ⟨0, 0, 0, 1⟩, 5⟩ : OutgoingKinematics)).lepton.pz = -4 ∧
    ((0:ℝ), (0:ℝ), (4000:ℝ)) ≠ ((0:ℝ), (0:ℝ), (-4:ℝ)) := by
  refine ⟨?_, rfl, by norm_num⟩
  have hperp : perp ⟨0, 0, -4, 5⟩ = 0 := by
    unfold perp
    norm_num
  simp only [scale]
  rw [hperp, mkRecoil_of_Pt_zero]
  have h16 : Real.sqrt ((5:ℝ) * 5 - 3 * 3) = 4 := by
    rw [show ((5:ℝ) * 5 - 3 * 3) = 4 ^ 2 by norm_num]
    exact Real.sqrt_sq (by norm_num)
  rw [h16]
  norm_num [GeV]

/-- C5 (amended): the unscaled policy passes the sample's recoil *energy*
through unchanged (the policy's computed energy is exactly the stored lepton
energy), and the forward-only policy, when the requested incident energy
equals the sample's reference energy and the sample is kinematically
compatible, applies no rescaling: its computed energy is again the stored
lepton energy (so the kinetic-energy fraction is unchanged) and no retry
draw is made.  The full output vector, however, is rebuilt (fresh azimuth,
non-negative longitudinal component), so only these kinematic summaries —
not the recorded momentum vector itself — are preserved. -/
theorem scale_passthrough_amended (MA : ℝ) (maxIterations : ℕ)
    (draw : ℕ → OutgoingKinematics) (phi incident_energy lepton_mass : ℝ)
    (hE : (draw 0).E = incident_energy)
    (hden : incident_energy - lepton_mass - MA ≠ 0)
    (hvalid : perp (draw 0).lepton * perp (draw 0).lepton +
        lepton_mass * lepton_mass ≤ (draw 0).lepton.e * (draw 0).lepton.e) :
    (scale .Undefined MA maxIterations draw phi incident_energy lepton_mass).EAcc =
      (draw 0).lepton.e ∧
    (scale .ForwardOnly MA maxIterations draw phi incident_energy lepton_mass).EAcc =
      (draw 0).lepton.e ∧
    (scale .ForwardOnly MA maxIterations draw phi incident_energy lepton_mass).draws = 1 := by
  have hEAcc : scaledEAcc incident_energy lepton_mass MA (draw 0) = (draw 0).lepton.e := by
    unfold scaledEAcc
    rw [hE, div_self hden]
    ring
  have hloop : forwardOnlyLoop draw incident_energy lepton_mass MA maxIterations 0 (draw 0) =
      (draw 0, 0, false) := by
    rw [forwardOnlyLoop, hEAcc, if_neg (not_lt.mpr hvalid)]
  refine ⟨rfl, ?_, ?_⟩
  · simp only [scale, hloop]
    exact hEAcc
  · simp only [scale, hloop]

/-- Witness for `scale_passthrough_amended`: a single on-shell 4 GeV sample
queried at exactly 4 GeV. -/
theorem scale_passthrough_amended_witness :
    (scale .Undefined (1/2) 10 (fun _ => ⟨⟨0, 0, 3, 5⟩, ⟨0, 0, 0, 1⟩, 4⟩) 0 4 3).EAcc =
      ((⟨⟨0, 0, 3, 5⟩, ⟨0, 0, 0, 1⟩, 4⟩ : OutgoingKinematics)).lepton.e ∧
    (scale .ForwardOnly (1/2) 10 (fun _ => ⟨⟨0, 0, 3, 5⟩, ⟨0, 0, 0, 1⟩, 4⟩) 0 4 3).EAcc =
      ((⟨⟨0, 0, 3, 5⟩, ⟨0, 0, 0, 1⟩, 4⟩ : OutgoingKinematics)).lepton.e ∧
    (scale .ForwardOnly (1/2) 10 (fun _ => ⟨⟨0, 0, 3, 5⟩, ⟨0, 0, 0, 1⟩, 4⟩) 0 4 3).draws = 1 :=
  scale_passthrough_amended (1/2) 10 (fun _ => ⟨⟨0, 0, 3, 5⟩, ⟨0, 0, 0, 1⟩, 4⟩) 0 4 3
    rfl (by norm_num) (by
      have hperp : perp ⟨0, 0, 3, 5⟩ = 0 := by
        unfold perp
        norm_num
      rw [hperp]
      norm_num)

/-- Invariant of the forward-only retry loop: started at counter `i ≤
maxIterations`, it exits with a counter of at most `maxIterations + 1`; if it
exits through the diagnostic break the counter is exactly `maxIterations + 1`
and the returned sample is the last one drawn. -/
theorem forwardOnlyLoop_invariant (draw : ℕ → OutgoingKinematics)
    (incident_energy lepton_mass MA : ℝ) (maxIterations : ℕ) :
    ∀ n i data, maxIterations - i = n → i ≤ maxIterations →
      (forwardOnlyLoop draw incident_energy lepton_mass MA maxIterations i data).2.1 ≤
        maxIterations + 1 ∧
      ((forwardOnlyLoop draw incident_energy lepton_mass MA maxIterations i data).2.2 =
          true →
        (forwardOnlyLoop draw incident_energy lepton_mass MA maxIterations i data).2.1 =
          maxIterations + 1 ∧
        (forwardOnlyLoop draw incident_energy lepton_mass MA maxIterations i data).1 =
          draw (forwardOnlyLoop draw incident_energy lepton_mass MA
            maxIterations i data).2.1) := by
  intro n
  induction n with
  | zero =>
    intro i data hn hi
    rw [forwardOnlyLoop]
    split_ifs with hc hcap
    · exact ⟨by dsimp only; omega, fun _ => ⟨by dsimp only; omega, rfl⟩⟩
    · omega
    · exact ⟨by dsimp only; omega, by simp⟩
  | succ n ih =>
    intro i data hn hi
    rw [forwardOnlyLoop]
    split_ifs with hc hcap
    · exact ⟨by dsimp only; omega, fun _ => ⟨by dsimp only; omega, rfl⟩⟩
    · exact ih (i + 1) (draw (i + 1)) (by omega) (by omega)
    · exact ⟨by dsimp only; omega, by simp⟩

/-- The `maxIterations_` fold of `MakePlaceholders` is bounded by its starting
value and by every sequence length in the library. -/
theorem foldl_min_le (lib : List (ℚ × List OutgoingKinematics)) :
    ∀ init : ℕ,
      lib.foldl (fun m kv => if kv.2.length < m then kv.2.length else m) init ≤ init ∧
      ∀ p ∈ lib,
        lib.foldl (fun m kv => if kv.2.length < m then kv.2.length else m) init ≤
          p.2.length := by
  induction lib with
  | nil => exact fun init => ⟨le_refl init, by simp⟩
  | cons q rest ih =>
    intro init
    rw [List.foldl_cons]
    obtain ⟨h1, h2⟩ := ih (if q.2.length < init then q.2.length else init)
    refine ⟨le_trans h1 (by split_ifs with h <;> omega), ?_⟩
    intro p hp
    rcases List.mem_cons.mp hp with rfl | h'
    · exact le_trans h1 (by split_ifs with h <;> omega)
    · exact h2 p h'

/-- C8: the forward-only sample-retry loop always terminates (it is a total
function of its fuel `maxIterations + 1 - i`): a kinematically compatible
starting sample exits at once without a retry, the in-loop draw counter never
exceeds `maxIterations + 1`, and when the diagnostic fires the loop proceeds
with the last drawn sample instead of looping further.  The bound itself is
fixed at library-load time: `MakePlaceholders` caps it at 10000 and at the
smallest sequence length in the loaded library. -/
theorem forward_only_retry_bounded (draw : ℕ → OutgoingKinematics)
    (incident_energy lepton_mass MA : ℝ) (maxIterations : ℕ)
    (data : OutgoingKinematics) (rand : ℚ → ℚ)
    (lib : List (ℚ × List OutgoingKinematics)) :
    (forwardOnlyLoop draw incident_energy lepton_mass MA maxIterations 0 data).2.1 ≤
      maxIterations + 1 ∧
    ((forwardOnlyLoop draw incident_energy lepton_mass MA maxIterations 0 data).2.2 =
        true →
      (forwardOnlyLoop draw incident_energy lepton_mass MA maxIterations 0 data).2.1 =
        maxIterations + 1 ∧
      (forwardOnlyLoop draw incident_energy lepton_mass MA maxIterations 0 data).1 =
        draw (forwardOnlyLoop draw incident_energy lepton_mass MA
          maxIterations 0 data).2.1) ∧
    (¬(perp data.lepton * perp data.lepton + lepton_mass * lepton_mass >
        scaledEAcc incident_energy lepton_mass MA data *
          scaledEAcc incident_energy lepton_mass MA data) →
      forwardOnlyLoop draw incident_energy lepton_mass MA maxIterations 0 data =
        (data, 0, false)) ∧
    (MakePlaceholders rand lib).2 ≤ 10000 ∧
    ∀ p ∈ lib, (MakePlaceholders rand lib).2 ≤ p.2.length := by
  obtain ⟨h1, h2⟩ := forwardOnlyLoop_invariant draw incident_energy lepton_mass MA
    maxIterations (maxIterations - 0) 0 data rfl (Nat.zero_le _)
  refine ⟨h1, h2, ?_, (foldl_min_le lib 10000).1, (foldl_min_le lib 10000).2⟩
  intro hc
  rw [forwardOnlyLoop, if_neg hc]

/-- Witness for `forward_only_retry_bounded`: a cap of 2 with a permanently
incompatible draw stream. -/
theorem forward_only_retry_bounded_witness :
    (forwardOnlyLoop (fun _ => ⟨⟨1, 0, 0, 1⟩, ⟨0, 0, 0, 1⟩, 8⟩) 8 2 1 2 0
        ⟨⟨1, 0, 0, 1⟩, ⟨0, 0, 0, 1⟩, 8⟩).2.1 ≤ 2 + 1 ∧
    ((forwardOnlyLoop (fun _ => ⟨⟨1, 0, 0, 1⟩, ⟨0, 0, 0, 1⟩, 8⟩) 8 2 1 2 0
        ⟨⟨1, 0, 0, 1⟩, ⟨0, 0, 0, 1⟩, 8⟩).2.2 = true →
      (forwardOnlyLoop (fun _ => ⟨⟨1, 0, 0, 1⟩, ⟨0, 0, 0, 1⟩, 8⟩) 8 2 1 2 0
        ⟨⟨1, 0, 0, 1⟩, ⟨0, 0, 0, 1⟩, 8⟩).2.1 = 2 + 1 ∧
      (forwardOnlyLoop (fun _ => ⟨⟨1, 0, 0, 1⟩, ⟨0, 0, 0, 1⟩, 8⟩) 8 2 1 2 0
          ⟨⟨1, 0, 0, 1⟩, ⟨0, 0, 0, 1⟩, 8⟩).1 =
        (fun _ => (⟨⟨1, 0, 0, 1⟩, ⟨0, 0, 0, 1⟩, (8:ℝ)⟩ : OutgoingKinematics))
          (forwardOnlyLoop (fun _ => ⟨⟨1, 0, 0, 1⟩, ⟨0, 0, 0, 1⟩, 8⟩) 8 2 1 2 0
            ⟨⟨1, 0, 0, 1⟩, ⟨0, 0, 0, 1⟩, 8⟩).2.1) ∧
    (¬(perp (⟨⟨1, 0, 0, 1⟩, ⟨0, 0, 0, 1⟩, (8:ℝ)⟩ : OutgoingKinematics).lepton *
          perp (⟨⟨1, 0, 0, 1⟩, ⟨0, 0, 0, 1⟩, (8:ℝ)⟩ : OutgoingKinematics).lepton +
          2 * 2 >
        scaledEAcc 8 2 1 ⟨⟨1, 0, 0, 1⟩, ⟨0, 0, 0, 1⟩, 8⟩ *
          scaledEAcc 8 2 1 ⟨⟨1, 0, 0, 1⟩, ⟨0, 0, 0, 1⟩, 8⟩) →
      forwardOnlyLoop (fun _ => ⟨⟨1, 0, 0, 1⟩, ⟨0, 0, 0, 1⟩, 8⟩) 8 2 1 2 0
          ⟨⟨1, 0, 0, 1⟩, ⟨0, 0, 0, 1⟩, 8⟩ =
        (⟨⟨1, 0, 0, 1⟩, ⟨0, 0, 0, 1⟩, 8⟩, 0, false)) ∧
    (MakePlaceholders (fun _ => 0) exLib).2 ≤ 10000 ∧
    ∀ p ∈ exLib, (MakePlaceholders (fun _ => 0) exLib).2 ≤ p.2.length :=
  forward_only_retry_bounded (fun _ => ⟨⟨1, 0, 0, 1⟩, ⟨0, 0, 0, 1⟩, 8⟩) 8 2 1 2
    ⟨⟨1, 0, 0, 1⟩, ⟨0, 0, 0, 1⟩, 8⟩ (fun _ => 0) exLib

end Scaling

end g4db
